import Mathlib

/-!
Verification development for the palm-reading chat API route
(`src/app/api/chat/route.ts`): a shallow embedding of the stream
transcoder (`callCozeAPI`), the model router (`getModel`) and the
`POST` handler, together with theorems settling the specification
claims about them.

Modelling conventions:
* JavaScript strings are modelled as Lean `String` / `List Char`
  (code-point level; all texts of interest stay inside the BMP, where
  UTF-16 code units and code points coincide).
* `JSON.parse` is modelled by `parseJson`, a recursive-descent parser
  over `List Char` with an explicit fuel argument so it reduces in the
  kernel.  Numbers are modelled as integers (no fractional numbers
  occur in any input relevant to the claims).
* JavaScript truthiness is modelled by `truthy`/`truthyV`; the string
  coercion used by `fullText += text` is modelled by `jsString`.
* The asynchronous stream is modelled as the list of records enqueued
  on the controller, together with the terminal state of the stream
  (closed via `controller.close` or errored via `controller.error`).
-/

namespace PalmRoute

mutual
/-- JSON values, as produced by `JSON.parse`.  Arrays and objects use
the mutually defined list types `JList` and `JFields` so that all
recursion over values is structural. -/
inductive JVal where
  | null
  | bool (b : Bool)
  | num (n : Int)
  | str (s : String)
  | arr (elems : JList)
  | obj (fields : JFields)

/-- A list of JSON values (array elements). -/
inductive JList where
  | nil
  | cons (hd : JVal) (tl : JList)

/-- A list of JSON object members, in source order. -/
inductive JFields where
  | nil
  | cons (key : String) (val : JVal) (tl : JFields)
end

/-- Look a key up in object members; with duplicate keys `JSON.parse`
keeps the last occurrence, so the rightmost match wins. -/
def JFields.get : JFields → String → Option JVal
  | JFields.nil, _ => Option.none
  | JFields.cons k v tl, key =>
    match JFields.get tl key with
    | Option.some r => Option.some r
    | Option.none => if k = key then Option.some v else Option.none

/-- Field access `v.k` on a parsed JSON value: only objects have
fields; on anything else the access yields `undefined` (`none`). -/
def JVal.get : JVal → String → Option JVal
  | JVal.obj fs, k => fs.get k
  | _, _ => Option.none

/-- JavaScript truthiness of a JSON value. -/
def truthyV : JVal → Bool
  | JVal.null => false
  | JVal.bool b => b
  | JVal.num n => decide (n ≠ 0)
  | JVal.str s => decide (s ≠ "")
  | JVal.arr _ => true
  | JVal.obj _ => true

/-- JavaScript truthiness of a possibly-absent (undefined) field. -/
def truthy : Option JVal → Bool
  | Option.some v => truthyV v
  | Option.none => false

mutual
/-- String coercion `String(v)` (used when `fullText += text` receives
a non-string).  Arrays stringify as their elements joined by commas,
with `null` elements contributing the empty string. -/
def jsString : JVal → String
  | JVal.null => "null"
  | JVal.bool b => if b then "true" else "false"
  | JVal.num n => toString n
  | JVal.str s => s
  | JVal.obj _ => "[object Object]"
  | JVal.arr xs => jsArrString xs

/-- Elements of an array joined by `,` as `Array.prototype.toString`
does (a `null` element contributes the empty string). -/
def jsArrString : JList → String
  | JList.nil => ""
  | JList.cons v JList.nil => (match v with | JVal.null => "" | y => jsString y)
  | JList.cons v tl =>
    (match v with | JVal.null => "" | y => jsString y) ++ "," ++ jsArrString tl
end

/-! ### A model of `JSON.parse` -/

/-- JSON inter-token whitespace. -/
def jsonWs (c : Char) : Bool := c = ' ' || c = '\t' || c = '\n' || c = '\r'

/-- Skip JSON whitespace. -/
def skipWs : List Char → List Char
  | [] => []
  | c :: cs => if jsonWs c then skipWs cs else c :: cs

/-- Strip an expected literal from the front of the input. -/
def stripL : List Char → List Char → Option (List Char)
  | [], cs => Option.some cs
  | _ :: _, [] => Option.none
  | p :: ps, c :: cs => if p = c then stripL ps cs else Option.none

/-- Hexadecimal digit value. -/
def hexVal (c : Char) : Option Nat :=
  if '0' ≤ c ∧ c ≤ '9' then Option.some (c.toNat - 48)
  else if 'a' ≤ c ∧ c ≤ 'f' then Option.some (c.toNat - 87)
  else if 'A' ≤ c ∧ c ≤ 'F' then Option.some (c.toNat - 55)
  else Option.none

/-- Parse the body of a JSON string literal (after the opening quote),
returning the decoded characters and the rest of the input. -/
def parseStrAux : Nat → List Char → Option (List Char × List Char)
  | 0, _ => Option.none
  | _ + 1, [] => Option.none
  | fuel + 1, c :: cs =>
    if c = '"' then Option.some ([], cs)
    else if c = '\\' then
      match cs with
      | [] => Option.none
      | e :: cs2 =>
        let dec : Option (Char × List Char) :=
          if e = '"' then Option.some ('"', cs2)
          else if e = '\\' then Option.some ('\\', cs2)
          else if e = '/' then Option.some ('/', cs2)
          else if e = 'b' then Option.some ('\x08', cs2)
          else if e = 'f' then Option.some ('\x0c', cs2)
          else if e = 'n' then Option.some ('\n', cs2)
          else if e = 'r' then Option.some ('\r', cs2)
          else if e = 't' then Option.some ('\t', cs2)
          else if e = 'u' then
            match cs2 with
            | a :: b :: c2 :: d :: cs3 =>
              match hexVal a, hexVal b, hexVal c2, hexVal d with
              | Option.some ha, Option.some hb, Option.some hc, Option.some hd =>
                Option.some (Char.ofNat (((ha * 16 + hb) * 16 + hc) * 16 + hd), cs3)
              | _, _, _, _ => Option.none
            | _ => Option.none
          else Option.none
        match dec with
        | Option.some (ch, rest) =>
          match parseStrAux fuel rest with
          | Option.some (s, r) => Option.some (ch :: s, r)
          | Option.none => Option.none
        | Option.none => Option.none
    else if c.toNat < 32 then Option.none
    else
      match parseStrAux fuel cs with
      | Option.some (s, r) => Option.some (c :: s, r)
      | Option.none => Option.none

/-- Accumulate decimal digits. -/
def digitsToNum : Nat → List Char → Nat → Nat × List Char
  | 0, cs, acc => (acc, cs)
  | fuel + 1, cs, acc =>
    match cs with
    | [] => (acc, [])
    | c :: rest =>
      if c.isDigit then digitsToNum fuel rest (acc * 10 + (c.toNat - 48))
      else (acc, cs)

/-- Parse an unsigned JSON integer (leading zeros rejected; fractional
and exponent parts are not needed by any input in this development and
are rejected). -/
def parseUnsigned (cs : List Char) : Option (Nat × List Char) :=
  match cs with
  | [] => Option.none
  | c :: rest =>
    if c = '0' then
      match rest with
      | [] => Option.some (0, [])
      | d :: _ =>
        if d.isDigit ∨ d = '.' ∨ d = 'e' ∨ d = 'E' then Option.none
        else Option.some (0, rest)
    else if c.isDigit then
      let p := digitsToNum rest.length rest (c.toNat - 48)
      match p.2 with
      | [] => Option.some p
      | d :: _ =>
        if d = '.' ∨ d = 'e' ∨ d = 'E' then Option.none
        else Option.some p
    else Option.none

/-- Parse a JSON number (integer). -/
def parseNumber (cs : List Char) : Option (Int × List Char) :=
  match cs with
  | '-' :: rest => (parseUnsigned rest).map (fun p => (-(p.1 : Int), p.2))
  | _ => (parseUnsigned cs).map (fun p => ((p.1 : Int), p.2))

mutual
/-- Parse one JSON value. -/
def parseVal : Nat → List Char → Option (JVal × List Char)
  | 0, _ => Option.none
  | fuel + 1, cs0 =>
    match skipWs cs0 with
    | [] => Option.none
    | '"' :: rest =>
      match parseStrAux (rest.length + 1) rest with
      | Option.some (s, r) => Option.some (JVal.str (String.mk s), r)
      | Option.none => Option.none
    | '{' :: rest =>
      (match skipWs rest with
       | '}' :: r => Option.some (JVal.obj JFields.nil, r)
       | cs2 => (parseFields fuel cs2).map (fun p => (JVal.obj p.1, p.2)))
    | '[' :: rest =>
      (match skipWs rest with
       | ']' :: r => Option.some (JVal.arr JList.nil, r)
       | cs2 => (parseItems fuel cs2).map (fun p => (JVal.arr p.1, p.2)))
    | 't' :: rest => (stripL ['r', 'u', 'e'] rest).map (fun r => (JVal.bool true, r))
    | 'f' :: rest => (stripL ['a', 'l', 's', 'e'] rest).map (fun r => (JVal.bool false, r))
    | 'n' :: rest => (stripL ['u', 'l', 'l'] rest).map (fun r => (JVal.null, r))
    | c :: rest =>
      if c = '-' ∨ c.isDigit then (parseNumber (c :: rest)).map (fun p => (JVal.num p.1, p.2))
      else Option.none

/-- Parse the members of a JSON object (after a non-empty opening). -/
def parseFields : Nat → List Char → Option (JFields × List Char)
  | 0, _ => Option.none
  | fuel + 1, cs =>
    match skipWs cs with
    | '"' :: rest =>
      match parseStrAux (rest.length + 1) rest with
      | Option.none => Option.none
      | Option.some (k, r1) =>
        match skipWs r1 with
        | ':' :: r2 =>
          match parseVal fuel r2 with
          | Option.none => Option.none
          | Option.some (v, r3) =>
            match skipWs r3 with
            | ',' :: r4 =>
              (parseFields fuel r4).map (fun p => (JFields.cons (String.mk k) v p.1, p.2))
            | '}' :: r4 => Option.some (JFields.cons (String.mk k) v JFields.nil, r4)
            | _ => Option.none
        | _ => Option.none
    | _ => Option.none

/-- Parse the elements of a JSON array (after a non-empty opening). -/
def parseItems : Nat → List Char → Option (JList × List Char)
  | 0, _ => Option.none
  | fuel + 1, cs =>
    match parseVal fuel cs with
    | Option.none => Option.none
    | Option.some (v, r) =>
      match skipWs r with
      | ',' :: r2 => (parseItems fuel r2).map (fun p => (JList.cons v p.1, p.2))
      | ']' :: r2 => Option.some (JList.cons v JList.nil, r2)
      | _ => Option.none
end

/-- Model of `JSON.parse`: parse one value and require the rest of the
input to be whitespace; otherwise the parse throws (here: `none`). -/
def parseJson (s : String) : Option JVal :=
  let cs := s.toList
  match parseVal (cs.length + 1) cs with
  | Option.some (v, r) => if skipWs r = [] then Option.some v else Option.none
  | Option.none => Option.none

/-! ### String helpers mirroring the JavaScript string methods -/

/-- The whitespace set of JavaScript `String.prototype.trim`
(WhiteSpace and LineTerminator code points). -/
def jsIsWs (c : Char) : Bool :=
  c = ' ' || c = '\t' || c = '\n' || c = '\r' || c = '\x0b' || c = '\x0c' ||
  c.toNat = 0xA0 || c.toNat = 0xFEFF || c.toNat = 0x1680 ||
  (0x2000 ≤ c.toNat && c.toNat ≤ 0x200A) ||
  c.toNat = 0x2028 || c.toNat = 0x2029 || c.toNat = 0x202F ||
  c.toNat = 0x205F || c.toNat = 0x3000

/-- Trim JavaScript whitespace from both ends of a character list. -/
def jsTrimList (cs : List Char) : List Char :=
  ((cs.dropWhile jsIsWs).reverse.dropWhile jsIsWs).reverse

/-- Model of `s.trim()`. -/
def jsTrim (s : String) : String := String.mk (jsTrimList s.toList)

/-- List-level string prefix test. -/
def startsWithL : List Char → List Char → Bool
  | [], _ => true
  | _ :: _, [] => false
  | p :: ps, c :: cs => p = c && startsWithL ps cs

/-- Model of `s.startsWith(pat)`. -/
def jsStartsWith (s pat : String) : Bool := startsWithL pat.toList s.toList

/-- Model of `s.substring(n)` for an index inside the string. -/
def jsDrop (s : String) (n : Nat) : String := String.mk (s.toList.drop n)

/-! ### The per-line text extraction of `callCozeAPI`'s read loop
(route.ts lines 144-276) -/

/-- The user locales the route distinguishes (`Locale` = 'en' | 'zh';
the localized error table only has these two keys and falls back to
English for anything else). -/
inductive Locale where
  | en
  | zh
deriving DecidableEq, Repr

/-- The localized service-busy message
(`errorMessages[currentLocale] || errorMessages.en`). -/
def errText : Locale → String
  | Locale.en => "Service is busy, please try again later."
  | Locale.zh => "服务运行繁忙，请稍后重试"

/-- The mutable state of the read loop: `hasText` and `fullText`. -/
structure TextSt where
  hasText : Bool
  fullText : String
deriving DecidableEq, Repr

/-- The `else if` chain after the `data.data` branch (route.ts lines
219-252): `output` directly or its `.text`, `content` (possibly a
stringified JSON carrying `.output`), `text`, `message` directly or
its `.content`.  The result is the JavaScript value assigned to the
variable `text` (the empty string when nothing was assigned). -/
def extractFallback (data : JVal) : JVal :=
  if truthy (data.get "output") then
    match data.get "output" with
    | Option.some (JVal.str s) => JVal.str s
    | Option.some v =>
      (match v.get "text" with
       | Option.some t => if truthyV t then t else JVal.str ""
       | Option.none => JVal.str "")
    | Option.none => JVal.str ""
  else if truthy (data.get "content") then
    match data.get "content" with
    | Option.some (JVal.str s) =>
      (match parseJson s with
       | Option.some inner =>
         if truthyV inner then
           match inner.get "output" with
           | Option.some (JVal.str o) => JVal.str o
           | _ => JVal.str s
         else JVal.str s
       | Option.none => JVal.str s)
    | _ => JVal.str ""
  else if truthy (data.get "text") then (data.get "text").getD JVal.null
  else if truthy (data.get "message") then
    match data.get "message" with
    | Option.some (JVal.str s) => JVal.str s
    | Option.some v =>
      (match v.get "content" with
       | Option.some c => if truthyV c then c else JVal.str ""
       | Option.none => JVal.str "")
    | Option.none => JVal.str ""
  else JVal.str ""

/-- Text extraction from one parsed line (route.ts lines 195-252).
If `data.data` is a truthy string it is parsed again as JSON: a truthy
string `output` inside wins, a failed inner parse falls back to the
raw `data.data` string, anything else leaves `text` empty.  Otherwise
the `extractFallback` chain runs. -/
def extractText (data : JVal) : JVal :=
  match data.get "data" with
  | Option.some (JVal.str s) =>
    if s ≠ "" then
      match parseJson s with
      | Option.some inner =>
        (match inner.get "output" with
         | Option.some (JVal.str o) => if o ≠ "" then JVal.str o else JVal.str ""
         | _ => JVal.str "")
      | Option.none => JVal.str s
    else extractFallback data
  | _ => extractFallback data

/-- Processing of one successfully parsed line (route.ts lines
174-266): an errored line replaces `fullText` with the localized
service-busy string; otherwise a truthy extracted `text` is appended
to `fullText` (via string coercion) and `hasText` is set. -/
def processParsed (loc : Locale) (st : TextSt) (data : JVal) : TextSt :=
  if truthy (data.get "error_message") || truthy (data.get "error_code") then
    { hasText := true, fullText := errText loc }
  else
    let t := extractText data
    if truthyV t then { hasText := true, fullText := st.fullText ++ jsString t }
    else st

/-- The SSE cleaning step (route.ts lines 149-154): trim, then strip a
leading `"data: "` and trim again. -/
def cleanLine (line : String) : String :=
  let t0 := jsTrim line
  if jsStartsWith t0 "data: " then jsTrim (jsDrop t0 6) else t0

/-- Lines skipped by the loop (route.ts lines 145 and 156-165): blank
lines, SSE control fields and `[DONE]`. -/
def skipLine (line : String) : Bool :=
  let t0 := jsTrim line
  if t0 = "" then true
  else
    let c := cleanLine line
    jsStartsWith c "id:" || jsStartsWith c "event:" || jsStartsWith c "retry:" ||
      c = "" || c = "[DONE]"

/-- Processing of one complete line of the upstream stream (route.ts
lines 144-275), including the catch that collects an unparsable line
as literal text when it does not start with `"data:"`. -/
def processLine (loc : Locale) (st : TextSt) (line : String) : TextSt :=
  if skipLine line then st
  else
    match parseJson (cleanLine line) with
    | Option.some data => processParsed loc st data
    | Option.none =>
      let t0 := jsTrim line
      if jsStartsWith t0 "data:" then st
      else { hasText := true, fullText := st.fullText ++ t0 }

/-- Fold `processLine` over a list of complete lines. -/
def processLines (loc : Locale) (lines : List String) : TextSt :=
  lines.foldl (processLine loc) { hasText := false, fullText := "" }

/-- The `else if (data.data ...)` arm of the remainder processing
(route.ts lines 299-305). -/
def processRemainderData (st : TextSt) (data : JVal) : TextSt :=
  match data.get "data" with
  | Option.some (JVal.str s) =>
    if s ≠ "" then
      match parseJson s with
      | Option.none => st
      | Option.some inner =>
        (match inner.get "output" with
         | Option.some (JVal.str o) =>
           if o ≠ "" then { hasText := true, fullText := st.fullText ++ o } else st
         | _ => st)
    else st
  | _ => st

/-- Processing of the trailing buffer after the reads are done
(route.ts lines 280-309).  Note it checks `content` before `data`,
has no literal-text fallback, and ignores every parse error. -/
def processRemainder (loc : Locale) (st : TextSt) (buffer : String) : TextSt :=
  if jsTrim buffer = "" then st
  else
    match parseJson (jsTrim buffer) with
    | Option.none => st
    | Option.some data =>
      if truthy (data.get "error_message") || truthy (data.get "error_code") then
        { hasText := true, fullText := errText loc }
      else
        match data.get "content" with
        | Option.some (JVal.str s) =>
          if s ≠ "" then
            match parseJson s with
            | Option.none => st
            | Option.some inner =>
              (match inner.get "output" with
               | Option.some (JVal.str o) =>
                 if o ≠ "" then { hasText := true, fullText := st.fullText ++ o } else st
               | _ => st)
          else processRemainderData st data
        | _ => processRemainderData st data

/-! ### The buffered line splitting of the read loop
(route.ts lines 130-144) -/

/-- Split decoded characters at newlines exactly as
`buffer.split('\n')` followed by `buffer = lines.pop() || ''` does:
the first component is the list of complete lines, the second the
trailing partial line kept in the buffer. -/
def breakNl : List Char → List (List Char) × List Char
  | [] => ([], [])
  | c :: cs =>
    let p := breakNl cs
    if c = '\n' then ([] :: p.1, p.2)
    else
      match p.1 with
      | [] => ([], c :: p.2)
      | l :: ls => ((c :: l) :: ls, p.2)

/-- Prepend a pending partial line to the first of a list of lines. -/
def consHead (r : List Char) : List (List Char) → List (List Char)
  | [] => []
  | l :: ls => (r ++ l) :: ls

/-- The state carried across reads: the line buffer and the text
accumulation state. -/
structure LoopSt where
  buffer : List Char
  ts : TextSt
deriving DecidableEq, Repr

/-- One iteration of the read loop (route.ts lines 135-277): append
the decoded chunk to the buffer, split off the complete lines, process
each of them, and keep the trailing partial line. -/
def stepChunk (loc : Locale) (s : LoopSt) (chunk : List Char) : LoopSt :=
  let p := breakNl (s.buffer ++ chunk)
  { buffer := p.2
    ts := p.1.foldl (fun t l => processLine loc t (String.mk l)) s.ts }

/-- Concatenation of a list of chunks. -/
def joinL : List (List Char) → List Char
  | [] => []
  | c :: cs => c ++ joinL cs

/-- The full collection pass of `callCozeAPI` over a successfully read
upstream stream: fold the read loop over the decoded chunks, then
process the trailing buffer (route.ts lines 130-309). -/
def collectFromChunks (loc : Locale) (chunks : List (List Char)) : TextSt :=
  let s := chunks.foldl (stepChunk loc)
    { buffer := [], ts := { hasText := false, fullText := "" } }
  processRemainder loc s.ts (String.mk s.buffer)

/-! ### Language detection, translation and re-chunked emission
(route.ts lines 322-449) -/

/-- The CJK test `/[\u4e00-\u9fa5]/.test(finalText)` (route.ts line
334). -/
def hasChinese (s : String) : Bool :=
  s.toList.any (fun c => decide (0x4E00 ≤ c.toNat ∧ c.toNat ≤ 0x9FA5))

/-- The detected response language (route.ts line 335):
`hasChinese ? 'zh' : 'en'`. -/
def detectLocale (s : String) : Locale :=
  if hasChinese s then Locale.zh else Locale.en

/-- The direction-specific translation instruction (route.ts lines
374-377), parameterized by the user's locale. -/
def translationPrompt (loc : Locale) (finalText : String) : String :=
  match loc with
  | Locale.zh =>
    "请将以下英文手相分析翻译成中文，保持专业术语和格式不变，保持原有的结构和段落格式：\n\n" ++ finalText
  | Locale.en =>
    "Please translate the following Chinese palm reading analysis to English, keeping professional terms and format unchanged, maintaining the original structure and paragraph format:\n\n" ++ finalText

/-- The external translation model: given the prompt, it either
returns the concatenation of its streamed output (`some`) or throws
(`none`, the `catch` at route.ts line 435). -/
def Translator : Type := String → Option String

/-- The chunks emitted by the re-chunking loop (route.ts lines
418-431), with fuel so the recursion is structural.  Each entry is a
40-code-unit slice paired with whether a pacing delay follows it
(`i + chunkSize < finalText.length`). -/
def sliceLoopF : Nat → List Char → List (List Char × Bool)
  | 0, _ => []
  | _ + 1, [] => []
  | fuel + 1, c :: cs =>
    ((c :: cs).take 40, decide (40 < (c :: cs).length)) ::
      sliceLoopF fuel ((c :: cs).drop 40)

/-- The re-chunking loop on a final text (route.ts lines 418-431). -/
def sliceLoop (s : List Char) : List (List Char × Bool) := sliceLoopF s.length s

/-- `totalChunks = Math.ceil(finalText.length / chunkSize)` (route.ts
line 413) with `chunkSize = 40`. -/
def totalChunks (l : Nat) : Nat := (l + 39) / 40

/-- `delayPerChunk = Math.floor(targetDuration / totalChunks)`
(route.ts line 415) with `targetDuration = 3000`.  Only used when the
final text is non-empty (`totalChunks > 0`). -/
def delayPerChunk (l : Nat) : Nat := 3000 / totalChunks l

/-- `actualDelay = Math.max(10, Math.min(delayPerChunk, 200))`
(route.ts line 416). -/
def actualDelay (l : Nat) : Nat := max 10 (min (delayPerChunk l) 200)

/-- One record of the output wire protocol (each is serialized as
`0:` + JSON + newline; the `message-start` payload carries a
timestamp-based id abstracted away here). -/
inductive WireChunk where
  | messageStart
  | textDelta (textDelta : String)
  | error (error : String)
  | messageEnd
deriving DecidableEq, Repr

/-- Terminal state of the output stream: `controller.close()` or
`controller.error(e)`. -/
inductive StreamEnd where
  | closed
  | errored
deriving DecidableEq, Repr

/-- The `text-delta` records produced by re-chunking a final text. -/
def deltasOf (s : String) : List WireChunk :=
  (sliceLoop s.toList).map (fun p => WireChunk.textDelta (String.mk p.1))

/-- Concatenation of all `textDelta` payloads of a chunk list. -/
def deltaConcat (l : List WireChunk) : String :=
  l.foldl (fun acc c => match c with | WireChunk.textDelta s => acc ++ s | _ => acc) ""

/-- Result of the translate-and-emit phase: the emitted records and
whether the translation model was invoked. -/
structure EmitResult where
  chunks : List WireChunk
  invoked : Bool

/-- The translate-and-emit phase (route.ts lines 322-449), reached
when `hasText && fullText.trim()` holds.  `finalText` is the trimmed
accumulated text; translation is invoked exactly when the detected
language differs from the user's locale; an empty translation result
falls back to `finalText` (`translatedText || finalText`); a throwing
translation falls back to re-chunking the untrimmed `fullText`
(route.ts lines 439-448, without pacing). -/
def emitPhase (loc : Locale) (tr : Translator) (fullText : String) : EmitResult :=
  let finalText := jsTrim fullText
  if detectLocale finalText ≠ loc then
    match tr (translationPrompt loc finalText) with
    | Option.some t =>
      { chunks := deltasOf (if t ≠ "" then t else finalText), invoked := true }
    | Option.none => { chunks := deltasOf fullText, invoked := true }
  else
    { chunks := deltasOf finalText, invoked := false }

/-- The upstream byte stream as seen through `reader.read()` and the
streaming text decoder: either all reads succeed and deliver the given
decoded chunks before `done`, or after delivering some chunks a read
rejects with an error carrying `msg`. -/
inductive Upstream where
  | ok (chunks : List (List Char))
  | err (chunks : List (List Char)) (msg : String)

/-- The whole stream transcoder of `callCozeAPI` (route.ts lines
106-498), as the list of records enqueued while the stream is
readable, paired with its terminal state.

On a successful read loop: `message-start` first, then (when
`hasText && fullText.trim()` holds) the re-chunked final text, then in
the `finally` block a single localized service-busy `text-delta` when
`hasText` is false, then `message-end`, and the stream closes.

On a read failure the `catch` (route.ts lines 458-468) enqueues an
`error` record and calls `controller.error`, after which every
`enqueue` in the `finally` block throws, so neither the service-busy
delta nor `message-end` reaches the stream and the stream ends
errored. -/
def transcode (loc : Locale) (tr : Translator) (up : Upstream) : List WireChunk × StreamEnd :=
  match up with
  | Upstream.ok chunks =>
    let ts := collectFromChunks loc chunks
    let emission :=
      if ts.hasText = true ∧ jsTrim ts.fullText ≠ "" then (emitPhase loc tr ts.fullText).chunks
      else []
    let tail :=
      (if ts.hasText = true then [] else [WireChunk.textDelta (errText loc)]) ++
        [WireChunk.messageEnd]
    (WireChunk.messageStart :: emission ++ tail, StreamEnd.closed)
  | Upstream.err _ msg =>
    ([WireChunk.messageStart, WireChunk.error msg], StreamEnd.errored)

/-! ### Provider routing for non-palmreading models
(route.ts lines 511-537 and 654-656) -/

/-- The provider clients the route can build. -/
inductive Provider where
  | openrouter (model : String)
  | deepseek (model : String)
  | openai (model : String)
deriving DecidableEq, Repr

/-- What `streamText` receives as its model: either a provider client
from `getModel`, or (when `webSearch` is set) the plain gateway model
id string. -/
inductive ChatModel where
  | provider (p : Provider)
  | gateway (id : String)
deriving DecidableEq, Repr

/-- The provider selection of `getModel` (route.ts lines 511-537).
Note `modelName.replace('openai/', '')` replaces the first occurrence,
which under the `startsWith` guard is the 7-character prefix. -/
def getModel (modelName : String) : Provider :=
  if modelName = "deepseek/deepseek-r1" then Provider.openrouter modelName
  else if modelName = "deepseek" ∨ jsStartsWith modelName "deepseek/" then
    Provider.deepseek "deepseek-chat"
  else if jsStartsWith modelName "openai/" then Provider.openai (jsDrop modelName 7)
  else Provider.openrouter modelName

/-- The model argument of `streamText` (route.ts line 656):
`webSearch ? 'perplexity/sonar' : getModel(model)`. -/
def selectModel (webSearch : Bool) (modelName : String) : ChatModel :=
  if webSearch then ChatModel.gateway "perplexity/sonar"
  else ChatModel.provider (getModel modelName)

/-- Modelled from the claim wording (C9): the routing table as the
specification states it, to be compared with `selectModel`. -/
def routeSpec (webSearch : Bool) (modelName : String) : ChatModel :=
  if webSearch then ChatModel.gateway "perplexity/sonar"
  else if modelName = "deepseek/deepseek-r1" then
    ChatModel.provider (Provider.openrouter "deepseek/deepseek-r1")
  else if modelName = "deepseek" ∨ jsStartsWith modelName "deepseek/" then
    ChatModel.provider (Provider.deepseek "deepseek-chat")
  else if jsStartsWith modelName "openai/" then
    ChatModel.provider (Provider.openai (jsDrop modelName 7))
  else ChatModel.provider (Provider.openrouter modelName)

/-! ### The `POST` handler for the palmreading model
(route.ts lines 539-652) -/

/-- One entry of a message's `parts` array; `text` may be absent. -/
structure Part where
  kind : String
  text : Option String
deriving DecidableEq, Repr

/-- One chat message; `parts` may be absent or not an array
(modelled as `none`). -/
structure Msg where
  role : String
  parts : Option (List Part)
deriving DecidableEq, Repr

/-- Extraction of the user input from the last message (route.ts lines
570-586): only when the last message exists, has role `user` and has a
`parts` array is the joined, trimmed text of its `text` parts used;
otherwise `userInput` stays `null` (`none`). -/
def extractUserInput (messages : List Msg) : Option String :=
  match messages.getLast? with
  | Option.none => Option.none
  | Option.some m =>
    if m.role = "user" then
      match m.parts with
      | Option.some ps =>
        Option.some (jsTrim (String.intercalate " "
          ((ps.filter (fun p => p.kind = "text")).map (fun p => p.text.getD ""))))
      | Option.none => Option.none
    else Option.none

/-- JavaScript truthiness of a nullable string (`!x` is true exactly
for `null`/`undefined` and the empty string). -/
def optStrTruthy : Option String → Bool
  | Option.some s => decide (s ≠ "")
  | Option.none => false

/-- The configuration error thrown at route.ts lines 23-27. -/
def cozeConfigErrorMsg : String :=
  "Coze API configuration is missing. Please set COZE_API_KEY, COZE_WORKFLOW_ID, and COZE_USER_NAME in your environment variables."

/-- The error thrown on a non-ok upstream response (route.ts lines
97-100): `Coze API error: <status> <body text>`. -/
def cozeHttpErrorMsg (status : Nat) (body : String) : String :=
  "Coze API error: " ++ toString status ++ " " ++ body

/-- The outcome of `callCozeAPI` (route.ts lines 14-508): it throws on
missing configuration, throws on a non-2xx upstream response
(`response.ok` is `200 ≤ status ≤ 299`), and otherwise returns the
transcoded stream. -/
def callCozeAPI (loc : Locale) (cfgOk : Bool) (status : Nat) (errBody : String)
    (up : Upstream) (tr : Translator) : Except String (List WireChunk × StreamEnd) :=
  if cfgOk = false then Except.error cozeConfigErrorMsg
  else if status < 200 ∨ 300 ≤ status then Except.error (cozeHttpErrorMsg status errBody)
  else Except.ok (transcode loc tr up)

/-- Body of the HTTP response of the `POST` handler. -/
inductive PostBody where
  | json (body : String)
  | stream (chunks : List WireChunk) (ending : StreamEnd)
deriving DecidableEq, Repr

/-- HTTP response of the `POST` handler. -/
structure PostResult where
  status : Nat
  body : PostBody
deriving DecidableEq, Repr

/-- The `model === 'palmreading'` branch of the `POST` handler
(route.ts lines 567-652): a request with neither a truthy `imageUrl`
nor truthy extracted user input is rejected with a 400 JSON error
before any upstream call; otherwise `callCozeAPI` runs and a thrown
error is converted into a well-formed three-record stream returned
with the default 200 status (route.ts lines 601-651). -/
def postPalm (loc : Locale) (messages : List Msg) (imageUrl : Option String)
    (cfgOk : Bool) (status : Nat) (errBody : String) (up : Upstream) (tr : Translator) :
    PostResult :=
  if optStrTruthy imageUrl = false ∧ optStrTruthy (extractUserInput messages) = false then
    { status := 400
      body := PostBody.json "\x7b\"error\":\"Either image or user input is required\"\x7d" }
  else
    match callCozeAPI loc cfgOk status errBody up tr with
    | Except.ok r => { status := 200, body := PostBody.stream r.1 r.2 }
    | Except.error msg =>
      { status := 200
        body := PostBody.stream
          [WireChunk.messageStart, WireChunk.textDelta msg, WireChunk.messageEnd]
          StreamEnd.closed }

/-! ### Helper lemmas -/

theorem sliceLoopF_nil (fuel : Nat) : sliceLoopF fuel [] = [] := by
  cases fuel <;> rfl

theorem sliceLoopF_join (fuel : Nat) : ∀ cs : List Char, cs.length ≤ fuel →
    joinL ((sliceLoopF fuel cs).map Prod.fst) = cs := by
  induction fuel with
  | zero =>
    intro cs h
    have hz : cs = [] := List.length_eq_zero.mp (Nat.le_zero.mp h)
    subst hz; rfl
  | succ n ih =>
    intro cs h
    cases cs with
    | nil => rfl
    | cons c cs' =>
      simp only [sliceLoopF, List.map, joinL]
      rw [ih ((c :: cs').drop 40) (by simp [List.length_drop] at h ⊢; omega)]
      exact List.take_append_drop 40 (c :: cs')

theorem sliceLoopF_length (fuel : Nat) : ∀ cs : List Char, cs.length ≤ fuel →
    (sliceLoopF fuel cs).length = totalChunks cs.length := by
  induction fuel with
  | zero =>
    intro cs h
    have hz : cs = [] := List.length_eq_zero.mp (Nat.le_zero.mp h)
    subst hz; rfl
  | succ n ih =>
    intro cs h
    cases cs with
    | nil => rfl
    | cons c cs' =>
      simp only [sliceLoopF, List.length_cons]
      rw [ih ((c :: cs').drop 40) (by simp [List.length_drop] at h ⊢; omega)]
      simp only [totalChunks, List.length_drop, List.length_cons]
      omega

theorem sliceLoopF_last (fuel : Nat) : ∀ cs : List Char, cs.length ≤ fuel → cs ≠ [] →
    (∀ p ∈ (sliceLoopF fuel cs).dropLast, p.1.length = 40 ∧ p.2 = true) ∧
    (∃ q, (sliceLoopF fuel cs).getLast? = Option.some q ∧ q.1.length ≤ 40 ∧ q.2 = false) := by
  induction fuel with
  | zero =>
    intro cs h hne
    exact absurd (List.length_eq_zero.mp (Nat.le_zero.mp h)) hne
  | succ n ih =>
    intro cs h hne
    cases cs with
    | nil => exact absurd rfl hne
    | cons c cs' =>
      by_cases h40 : (c :: cs').drop 40 = []
      · have hlen : cs'.length + 1 ≤ 40 := by
          have hd := List.drop_eq_nil_iff.mp h40
          simpa using hd
        simp only [sliceLoopF, h40, sliceLoopF_nil]
        constructor
        · intro p hp; simp [List.dropLast] at hp
        · refine ⟨((c :: cs').take 40, decide (40 < (c :: cs').length)), rfl, ?_, ?_⟩
          · simp only [List.length_take, List.length_cons]; omega
          · apply decide_eq_false
            simp only [List.length_cons]
            omega
      · have hlen : 40 < cs'.length + 1 := by
          by_contra hcon
          push_neg at hcon
          exact h40 (List.drop_eq_nil_of_le (by simpa using hcon))
        have hrec := ih ((c :: cs').drop 40)
          (by simp only [List.length_drop, List.length_cons] at h ⊢; omega) h40
        obtain ⟨hmid, q, hq, hq40, hqf⟩ := hrec
        have hrecne : sliceLoopF n ((c :: cs').drop 40) ≠ [] := by
          intro hcon; rw [hcon] at hq; simp at hq
        simp only [sliceLoopF]
        constructor
        · intro p hp
          rw [List.dropLast_cons_of_ne_nil hrecne] at hp
          rcases List.mem_cons.mp hp with hp1 | hp2
          · subst hp1
            refine ⟨?_, ?_⟩
            · simp only [List.length_take, List.length_cons]; omega
            · apply decide_eq_true
              simp only [List.length_cons]
              omega
          · exact hmid p hp2
        · refine ⟨q, ?_, hq40, hqf⟩
          cases hr : sliceLoopF n ((c :: cs').drop 40) with
          | nil => exact absurd hr hrecne
          | cons x xs =>
            rw [hr] at hq
            rw [List.getLast?_cons_cons]
            exact hq


theorem consHead_nil (ls : List (List Char)) : consHead [] ls = ls := by
  cases ls <;> rfl

theorem breakNl_append (a b : List Char) :
    breakNl (a ++ b) =
      ((breakNl a).1 ++ consHead (breakNl a).2 (breakNl b).1,
       if (breakNl b).1 = [] then (breakNl a).2 ++ (breakNl b).2 else (breakNl b).2) := by
  induction a with
  | nil =>
    simp only [List.nil_append, breakNl, consHead_nil]
    split <;> simp
  | cons c a ih =>
    simp only [List.cons_append, breakNl, List.append_eq]
    rw [ih]
    by_cases hc : c = '\n'
    · subst hc
      simp [breakNl, consHead]
    · rw [if_neg hc]
      cases hA : (breakNl a).1 with
      | nil =>
        cases hB : (breakNl b).1 with
        | nil => simp [breakNl, hA, hB, consHead, if_neg hc]
        | cons l ls => simp [breakNl, hA, hB, consHead, if_neg hc, List.append_assoc]
      | cons l ls =>
        simp [breakNl, hA, consHead, if_neg hc]

theorem nl_not_mem_breakNl_snd (l : List Char) : '\n' ∉ (breakNl l).2 := by
  induction l with
  | nil => simp [breakNl]
  | cons c cs ih =>
    simp only [breakNl]
    by_cases hc : c = '\n'
    · simpa [hc] using ih
    · rw [if_neg hc]
      cases hA : (breakNl cs).1 with
      | nil =>
        simp only []
        intro hmem
        rcases List.mem_cons.mp hmem with h1 | h2
        · exact hc h1.symm
        · exact ih h2
      | cons l ls => simpa using ih

theorem breakNl_no_nl (l : List Char) (h : '\n' ∉ l) : breakNl l = ([], l) := by
  induction l with
  | nil => rfl
  | cons c cs ih =>
    have hc : c ≠ '\n' := fun hcon => h (hcon ▸ List.mem_cons_self c cs)
    have hcs : '\n' ∉ cs := fun hcon => h (List.mem_cons_of_mem c hcon)
    simp only [breakNl, ih hcs, if_neg hc]

theorem stepChunk_append (loc : Locale) (s : LoopSt) (c d : List Char) :
    stepChunk loc (stepChunk loc s c) d = stepChunk loc s (c ++ d) := by
  simp only [stepChunk]
  rw [← List.append_assoc, breakNl_append (s.buffer ++ c) d,
    breakNl_append (breakNl (s.buffer ++ c)).2 d,
    breakNl_no_nl (breakNl (s.buffer ++ c)).2 (nl_not_mem_breakNl_snd _)]
  simp [List.foldl_append]

theorem foldl_stepChunk (loc : Locale) :
    ∀ (cs : List (List Char)) (s : LoopSt) (c : List Char),
      List.foldl (stepChunk loc) s (c :: cs) = stepChunk loc s (c ++ joinL cs) := by
  intro cs
  induction cs with
  | nil => intro s c; simp [joinL]
  | cons c2 cs ih =>
    intro s c
    have h1 : List.foldl (stepChunk loc) s (c :: c2 :: cs) =
        List.foldl (stepChunk loc) (stepChunk loc s c) (c2 :: cs) := rfl
    rw [h1, ih (stepChunk loc s c) c2, stepChunk_append]
    simp [joinL]

theorem collect_eq_join (loc : Locale) (cs : List (List Char)) :
    collectFromChunks loc cs = collectFromChunks loc [joinL cs] := by
  cases cs with
  | nil => rfl
  | cons c cs =>
    simp only [collectFromChunks]
    rw [foldl_stepChunk]
    have h2 : List.foldl (stepChunk loc)
        { buffer := [], ts := { hasText := false, fullText := "" } } [joinL (c :: cs)] =
        stepChunk loc { buffer := [], ts := { hasText := false, fullText := "" } }
          (joinL (c :: cs)) := rfl
    rw [h2]
    rfl


theorem strMk_append (a b : List Char) : String.mk a ++ String.mk b = String.mk (a ++ b) := rfl

theorem strMk_toList (s : String) : String.mk s.toList = s := by
  cases s
  rfl

theorem str_append_empty (s : String) : s ++ "" = s := by
  cases s
  rw [show ("" : String) = String.mk [] from rfl, strMk_append, List.append_nil]

theorem str_empty_append (s : String) : "" ++ s = s := by
  cases s
  rw [show ("" : String) = String.mk [] from rfl, strMk_append, List.nil_append]

theorem str_append_assoc (a b c : String) : a ++ b ++ c = a ++ (b ++ c) := by
  cases a; cases b; cases c
  rw [strMk_append, strMk_append, strMk_append, strMk_append, List.append_assoc]

/-- Recognizer for `text-delta` records. -/
def isTextDelta : WireChunk → Bool
  | WireChunk.textDelta _ => true
  | _ => false

theorem sliceLoop_join (cs : List Char) : joinL ((sliceLoop cs).map Prod.fst) = cs :=
  sliceLoopF_join cs.length cs (Nat.le_refl _)

theorem deltaConcat_go (parts : List (List Char × Bool)) : ∀ acc : String,
    List.foldl (fun acc c => match c with | WireChunk.textDelta s => acc ++ s | _ => acc) acc
      (parts.map (fun p => WireChunk.textDelta (String.mk p.1))) =
    acc ++ String.mk (joinL (parts.map Prod.fst)) := by
  induction parts with
  | nil =>
    intro acc
    simp only [List.map, List.foldl, joinL]
    rw [show String.mk [] = "" from rfl, str_append_empty]
  | cons p ps ih =>
    intro acc
    simp only [List.map, List.foldl, joinL]
    rw [ih (acc ++ String.mk p.1), ← strMk_append, ← str_append_assoc]

theorem deltaConcat_deltasOf (s : String) : deltaConcat (deltasOf s) = s := by
  have h := deltaConcat_go (sliceLoop s.toList) ""
  rw [sliceLoop_join, strMk_toList, str_empty_append] at h
  exact h

theorem deltasOf_all (s : String) : ∀ c ∈ deltasOf s, isTextDelta c = true := by
  intro c hc
  rcases List.mem_map.mp hc with ⟨p, _, hp⟩
  rw [← hp]
  rfl

theorem emitPhase_all (loc : Locale) (tr : Translator) (ft : String) :
    ∀ c ∈ (emitPhase loc tr ft).chunks, isTextDelta c = true := by
  intro c hc
  simp only [emitPhase] at hc
  by_cases hd : detectLocale (jsTrim ft) ≠ loc
  · rw [if_pos hd] at hc
    cases htr : tr (translationPrompt loc (jsTrim ft)) with
    | none => rw [htr] at hc; exact deltasOf_all _ c hc
    | some t => rw [htr] at hc; exact deltasOf_all _ c hc
  · rw [if_neg hd] at hc
    exact deltasOf_all _ c hc

/-! ### Claim theorems -/

/-- Unfolding of the successful-read path of `transcode`. -/
theorem transcode_ok (loc : Locale) (tr : Translator) (chunks : List (List Char)) :
    transcode loc tr (Upstream.ok chunks) =
      (WireChunk.messageStart ::
        ((if (collectFromChunks loc chunks).hasText = true ∧
              jsTrim (collectFromChunks loc chunks).fullText ≠ "" then
            (emitPhase loc tr (collectFromChunks loc chunks).fullText).chunks
          else []) ++
         ((if (collectFromChunks loc chunks).hasText = true then []
           else [WireChunk.textDelta (errText loc)]) ++ [WireChunk.messageEnd])),
       StreamEnd.closed) := rfl

/-- Claim C1, amended: when the upstream reads complete without
exception, the emitted sequence is exactly one `message-start` first,
then zero or more `text-delta` records, then exactly one `message-end`
last, and the stream closes, regardless of extraction or translation
outcomes; when a read fails, the stream emits `message-start`, then a
single `error` record, and is errored without a `message-end` (the
`catch` calls `controller.error`, so the enqueues in the `finally`
block throw). -/
theorem spec_C1_thm (loc : Locale) (tr : Translator) :
    (∀ chunks : List (List Char), ∃ mid : List WireChunk,
      (transcode loc tr (Upstream.ok chunks)).1 =
        WireChunk.messageStart :: mid ++ [WireChunk.messageEnd] ∧
      (transcode loc tr (Upstream.ok chunks)).2 = StreamEnd.closed ∧
      (∀ c ∈ mid, isTextDelta c = true)) ∧
    (∀ (chunks : List (List Char)) (msg : String),
      transcode loc tr (Upstream.err chunks msg) =
        ([WireChunk.messageStart, WireChunk.error msg], StreamEnd.errored)) := by
  constructor
  · intro chunks
    refine ⟨(if (collectFromChunks loc chunks).hasText = true ∧
              jsTrim (collectFromChunks loc chunks).fullText ≠ "" then
            (emitPhase loc tr (collectFromChunks loc chunks).fullText).chunks
          else []) ++
         (if (collectFromChunks loc chunks).hasText = true then []
          else [WireChunk.textDelta (errText loc)]), ?_, rfl, ?_⟩
    · rw [transcode_ok, ← List.append_assoc]
      rfl
    · intro c hc
      rcases List.mem_append.mp hc with h1 | h2
      · split at h1
        · exact emitPhase_all loc tr _ c h1
        · simp at h1
      · split at h2
        · simp at h2
        · rcases List.mem_singleton.mp h2 with rfl
          rfl
  · intro chunks msg
    rfl

/-- Claim C1, counterexample: on an upstream read failure the emitted
sequence ends in an `error` record, contains no `message-end` at all,
and the stream is errored -- so the claimed shape fails on the
read-failure path the claim quantifies over. -/
theorem spec_C1_cex :
    (transcode Locale.en (fun _ => Option.none) (Upstream.err [] "boom")).1.getLast? =
      Option.some (WireChunk.error "boom") ∧
    WireChunk.error "boom" ≠ WireChunk.messageEnd ∧
    ((transcode Locale.en (fun _ => Option.none) (Upstream.err [] "boom")).1.filter
      (fun c => c = WireChunk.messageEnd)).length = 0 ∧
    (transcode Locale.en (fun _ => Option.none) (Upstream.err [] "boom")).2 =
      StreamEnd.errored := by decide

/-- Claim C2: for a non-empty final text the re-chunking loop emits
exactly `ceil(L/40) = (L+39)/40` slices whose concatenation is the
text, every slice except the last is exactly 40 code units, the last
is at most 40, a pacing delay follows every slice except the last, and
the delay is `max(10, min(floor(3000 / ceil(L/40)), 200))`. -/
theorem spec_C2_thm (s : List Char) (h : s ≠ []) :
    (sliceLoop s).length = totalChunks s.length ∧
    joinL ((sliceLoop s).map Prod.fst) = s ∧
    (∀ p ∈ (sliceLoop s).dropLast, p.1.length = 40 ∧ p.2 = true) ∧
    (∃ q, (sliceLoop s).getLast? = Option.some q ∧ q.1.length ≤ 40 ∧ q.2 = false) ∧
    totalChunks s.length = (s.length + 39) / 40 ∧
    actualDelay s.length = max 10 (min (3000 / totalChunks s.length) 200) := by
  refine ⟨sliceLoopF_length s.length s (Nat.le_refl _), sliceLoop_join s,
    (sliceLoopF_last s.length s (Nat.le_refl _) h).1,
    (sliceLoopF_last s.length s (Nat.le_refl _) h).2, rfl, rfl⟩

/-- Claim C2, witness at a concrete 50-character text. -/
theorem spec_C2_witness :
    (sliceLoop ("01234567890123456789012345678901234567890123456789".toList)).length =
      totalChunks ("01234567890123456789012345678901234567890123456789".toList).length ∧
    joinL ((sliceLoop ("01234567890123456789012345678901234567890123456789".toList)).map Prod.fst) =
      "01234567890123456789012345678901234567890123456789".toList ∧
    (∀ p ∈ (sliceLoop ("01234567890123456789012345678901234567890123456789".toList)).dropLast,
      p.1.length = 40 ∧ p.2 = true) ∧
    (∃ q, (sliceLoop ("01234567890123456789012345678901234567890123456789".toList)).getLast? =
      Option.some q ∧ q.1.length ≤ 40 ∧ q.2 = false) ∧
    totalChunks ("01234567890123456789012345678901234567890123456789".toList).length =
      (("01234567890123456789012345678901234567890123456789".toList).length + 39) / 40 ∧
    actualDelay ("01234567890123456789012345678901234567890123456789".toList).length =
      max 10 (min (3000 /
        totalChunks ("01234567890123456789012345678901234567890123456789".toList).length) 200) :=
  spec_C2_thm ("01234567890123456789012345678901234567890123456789".toList) (by decide)

/-- Claim C3: when the request passes validation and either the
configuration is missing or the upstream HTTP status is not 2xx, the
`POST` handler still answers with status 200 and a well-formed stream
of exactly `message-start`, one error `text-delta` carrying the thrown
error message, and `message-end`. -/
theorem spec_C3_thm (loc : Locale) (messages : List Msg) (imageUrl : Option String)
    (cfgOk : Bool) (st : Nat) (body : String) (up : Upstream) (tr : Translator)
    (hvalid : optStrTruthy imageUrl = true ∨ optStrTruthy (extractUserInput messages) = true)
    (hfail : cfgOk = false ∨ st < 200 ∨ 300 ≤ st) :
    ∃ msg : String,
      postPalm loc messages imageUrl cfgOk st body up tr =
        { status := 200
          body := PostBody.stream
            [WireChunk.messageStart, WireChunk.textDelta msg, WireChunk.messageEnd]
            StreamEnd.closed } := by
  have hcond : ¬(optStrTruthy imageUrl = false ∧
      optStrTruthy (extractUserInput messages) = false) := by
    rcases hvalid with h | h <;> simp [h]
  unfold postPalm
  rw [if_neg hcond]
  cases hcfg : cfgOk with
  | false =>
    refine ⟨cozeConfigErrorMsg, ?_⟩
    unfold callCozeAPI
    rw [if_pos rfl]
  | true =>
    have hst : st < 200 ∨ 300 ≤ st := by
      rcases hfail with h | h | h
      · rw [hcfg] at h; exact absurd h (by simp)
      · exact Or.inl h
      · exact Or.inr h
    refine ⟨cozeHttpErrorMsg st body, ?_⟩
    unfold callCozeAPI
    rw [if_neg (by simp), if_pos hst]

/-- Claim C3, witness at a concrete upstream 500. -/
theorem spec_C3_witness :
    ∃ msg : String,
      postPalm Locale.en [] (Option.some "https://x/img.png") true 500 "oops"
        (Upstream.ok []) (fun _ => Option.none) =
        { status := 200
          body := PostBody.stream
            [WireChunk.messageStart, WireChunk.textDelta msg, WireChunk.messageEnd]
            StreamEnd.closed } :=
  spec_C3_thm Locale.en [] (Option.some "https://x/img.png") true 500 "oops"
    (Upstream.ok []) (fun _ => Option.none) (Or.inl (by decide)) (Or.inr (Or.inr (by decide)))

/-- Claim C4, amended: a line whose parsed JSON has a truthy
`error_message` or `error_code` contributes no content; instead it
makes the state exactly `hasText = true` with `fullText` equal to the
localized service-busy string -- for every prior state, so text
collected from earlier lines is discarded rather than preserved. -/
theorem spec_C4_thm (loc : Locale) (st : TextSt) (line : String) (j : JVal)
    (hskip : skipLine line = false)
    (hparse : parseJson (cleanLine line) = Option.some j)
    (herr : (truthy (j.get "error_message") || truthy (j.get "error_code")) = true) :
    processLine loc st line = { hasText := true, fullText := errText loc } := by
  simp only [processLine, hskip, Bool.false_eq_true, if_false, hparse, processParsed, herr,
    if_true]

/-- Claim C4, witness: an error line processed after text "A" was
collected. -/
theorem spec_C4_witness :
    processLine Locale.en { hasText := true, fullText := "A" } "\x7b\"error_code\":1\x7d" =
      { hasText := true, fullText := "Service is busy, please try again later." } :=
  spec_C4_thm Locale.en { hasText := true, fullText := "A" } "\x7b\"error_code\":1\x7d"
    (JVal.obj (JFields.cons "error_code" (JVal.num 1) JFields.nil))
    (by decide) rfl rfl

/-- Claim C4, counterexample: text "A" is collected from the first
line, yet after an `error_code` line the final text is the localized
service-busy string, not "A" -- so the error string is used even
though other text was collected, and that text is not preserved. -/
theorem spec_C4_cex :
    processLines Locale.en ["\x7b\"text\":\"A\"\x7d"] = { hasText := true, fullText := "A" } ∧
    processLines Locale.en ["\x7b\"text\":\"A\"\x7d", "\x7b\"error_code\":1\x7d"] =
      { hasText := true, fullText := "Service is busy, please try again later." } ∧
    "Service is busy, please try again later." ≠ "A" := by decide

/-- Claim C5, amended: after collection, the CJK classification of the
trimmed text is compared with the locale; when they agree no
translation is invoked and the emitted text equals the trimmed
accumulated text; when they differ the translation model is invoked on
the direction-specific prompt and the emitted text is its output, or
the trimmed text when the output is empty, or the untrimmed
accumulated text when translation throws. -/
theorem spec_C5_thm (loc : Locale) (tr : Translator) (fullText : String) :
    (detectLocale (jsTrim fullText) = loc →
      (emitPhase loc tr fullText).invoked = false ∧
      deltaConcat (emitPhase loc tr fullText).chunks = jsTrim fullText) ∧
    (detectLocale (jsTrim fullText) ≠ loc →
      (emitPhase loc tr fullText).invoked = true ∧
      deltaConcat (emitPhase loc tr fullText).chunks =
        (match tr (translationPrompt loc (jsTrim fullText)) with
         | Option.some t => if t ≠ "" then t else jsTrim fullText
         | Option.none => fullText)) := by
  constructor
  · intro h
    refine ⟨?_, ?_⟩
    · simp only [emitPhase, if_neg (not_not_intro h)]
    · simp only [emitPhase, if_neg (not_not_intro h)]
      exact deltaConcat_deltasOf _
  · intro h
    simp only [emitPhase, if_pos h]
    cases htr : tr (translationPrompt loc (jsTrim fullText)) with
    | none => exact ⟨rfl, deltaConcat_deltasOf _⟩
    | some t => exact ⟨rfl, deltaConcat_deltasOf _⟩

/-- Claim C5, witness: an English text with an English locale is
emitted untranslated, and a Chinese text with an English locale is
emitted as the translator output. -/
theorem spec_C5_witness :
    ((emitPhase Locale.en (fun _ => Option.none) "hi").invoked = false ∧
      deltaConcat (emitPhase Locale.en (fun _ => Option.none) "hi").chunks = jsTrim "hi") ∧
    ((emitPhase Locale.en (fun _ => Option.some "hello there") "你好").invoked = true ∧
      deltaConcat (emitPhase Locale.en (fun _ => Option.some "hello there") "你好").chunks =
        "hello there") := by
  constructor
  · exact (spec_C5_thm Locale.en (fun _ => Option.none) "hi").1 (by decide)
  · exact (spec_C5_thm Locale.en (fun _ => Option.some "hello there") "你好").2 (by decide)

/-- Claim C5, counterexample: the upstream text " hello " has the same
classification as locale `en`, yet the emitted text is the trimmed
"hello", which differs from the raw accumulated upstream text. -/
theorem spec_C5_cex :
    collectFromChunks Locale.en
      [("\x7b\"data\":\"\x7b\\\"output\\\":\\\" hello \\\"\x7d\"\x7d\n").toList] =
      { hasText := true, fullText := " hello " } ∧
    hasChinese " hello " = false ∧
    (transcode Locale.en (fun _ => Option.none)
      (Upstream.ok [("\x7b\"data\":\"\x7b\\\"output\\\":\\\" hello \\\"\x7d\"\x7d\n").toList])).1 =
      [WireChunk.messageStart, WireChunk.textDelta "hello", WireChunk.messageEnd] ∧
    "hello" ≠ " hello " := by decide

/-- Claim C6, amended: for a parsed line whose `data` field is a
non-empty string, the extractor parses that string as JSON; a string
`output` inside is the extracted text, and a failed inner parse makes
the raw `data` string the extracted text. -/
theorem spec_C6_thm (j : JVal) (s : String)
    (hs : j.get "data" = Option.some (JVal.str s)) (hne : s ≠ "") :
    (∀ inner, parseJson s = Option.some inner →
      ∀ o, inner.get "output" = Option.some (JVal.str o) → extractText j = JVal.str o) ∧
    (parseJson s = Option.none → extractText j = JVal.str s) := by
  constructor
  · intro inner hinner o ho
    simp only [extractText, hs]
    rw [if_pos hne]
    simp only [hinner, ho]
    by_cases hos : o = ""
    · subst hos
      rw [if_neg (fun hcon => hcon rfl)]
    · rw [if_pos hos]
  · intro hno
    simp only [extractText, hs]
    rw [if_pos hne]
    simp only [hno]

/-- Claim C6, witness at the specification example line. -/
theorem spec_C6_witness :
    extractText (JVal.obj (JFields.cons "data"
      (JVal.str "\x7b\"output\":\"hello\"\x7d") JFields.nil)) = JVal.str "hello" :=
  (spec_C6_thm
    (JVal.obj (JFields.cons "data" (JVal.str "\x7b\"output\":\"hello\"\x7d") JFields.nil))
    "\x7b\"output\":\"hello\"\x7d" rfl (by decide)).1
    (JVal.obj (JFields.cons "output" (JVal.str "hello") JFields.nil)) rfl "hello" rfl

/-- Claim C6, counterexample: with an empty-string `data` field the
branch is skipped entirely (JavaScript truthiness), so a `text` field
wins and the extracted text is "X", not the raw `data` string "" that
the claim prescribes via its failed-inner-parse clause. -/
theorem spec_C6_cex :
    parseJson "\x7b\"data\":\"\",\"text\":\"X\"\x7d" =
      Option.some (JVal.obj (JFields.cons "data" (JVal.str "")
        (JFields.cons "text" (JVal.str "X") JFields.nil))) ∧
    extractText (JVal.obj (JFields.cons "data" (JVal.str "")
      (JFields.cons "text" (JVal.str "X") JFields.nil))) = JVal.str "X" ∧
    parseJson "" = Option.none ∧
    ("X" : String) ≠ "" :=
  ⟨rfl, rfl, rfl, by decide⟩

/-- Claim C7: the collected text (and the whole collection state)
depends only on the concatenation of the decoded read chunks, not on
where the reads were fragmented. -/
theorem spec_C7_thm (loc : Locale) (cs1 cs2 : List (List Char)) (h : joinL cs1 = joinL cs2) :
    collectFromChunks loc cs1 = collectFromChunks loc cs2 := by
  rw [collect_eq_join loc cs1, collect_eq_join loc cs2, h]

/-- Claim C7, witness: a two-chunk split in the middle of a JSON line
collects the same state as the unsplit stream. -/
theorem spec_C7_witness :
    collectFromChunks Locale.en
      [("\x7b\"text\":\"A\"\x7d\n\x7b\"te").toList, ("xt\":\"B\"\x7d\n").toList] =
    collectFromChunks Locale.en [("\x7b\"text\":\"A\"\x7d\n\x7b\"text\":\"B\"\x7d\n").toList] :=
  spec_C7_thm Locale.en _ _ (by decide)

/-- Claim C8, amended: the single localized service-busy `text-delta`
is emitted exactly when no truthy text was ever collected
(`hasText = false`); when truthy text was collected but trims to the
empty string, the output stream contains zero `text-delta` records. -/
theorem spec_C8_thm (loc : Locale) (tr : Translator) (chunks : List (List Char)) :
    ((collectFromChunks loc chunks).hasText = false →
      (transcode loc tr (Upstream.ok chunks)).1 =
        [WireChunk.messageStart, WireChunk.textDelta (errText loc), WireChunk.messageEnd]) ∧
    ((collectFromChunks loc chunks).hasText = true →
      jsTrim (collectFromChunks loc chunks).fullText = "" →
      (transcode loc tr (Upstream.ok chunks)).1 =
        [WireChunk.messageStart, WireChunk.messageEnd]) := by
  constructor
  · intro h
    rw [transcode_ok]
    simp [h]
  · intro h ht
    rw [transcode_ok]
    simp [h, ht]

/-- Claim C8, witness: an upstream stream with no content yields the
localized service-busy delta. -/
theorem spec_C8_witness :
    (transcode Locale.en (fun _ => Option.none) (Upstream.ok [])).1 =
      [WireChunk.messageStart,
       WireChunk.textDelta "Service is busy, please try again later.",
       WireChunk.messageEnd] :=
  (spec_C8_thm Locale.en (fun _ => Option.none) []).1 (by decide)

/-- Claim C8, counterexample: a stream whose only extracted text is a
single space sets `hasText`, so the output has zero `text-delta`
records instead of the claimed service-busy delta. -/
theorem spec_C8_cex :
    collectFromChunks Locale.en
      [("\x7b\"data\":\"\x7b\\\"output\\\":\\\" \\\"\x7d\"\x7d\n").toList] =
      { hasText := true, fullText := " " } ∧
    jsTrim " " = "" ∧
    (transcode Locale.en (fun _ => Option.none)
      (Upstream.ok [("\x7b\"data\":\"\x7b\\\"output\\\":\\\" \\\"\x7d\"\x7d\n").toList])) =
      ([WireChunk.messageStart, WireChunk.messageEnd], StreamEnd.closed) := by decide

/-- Claim C9: the model argument of `streamText` follows the claimed
routing table exactly: `webSearch` forces the `perplexity/sonar`
gateway id; otherwise `deepseek/deepseek-r1` goes to OpenRouter
unchanged, `deepseek` or a `deepseek/` prefix goes to DeepSeek as
`deepseek-chat`, an `openai/` prefix goes to OpenAI with the prefix
stripped, and anything else goes to OpenRouter. -/
theorem spec_C9_thm (ws : Bool) (m : String) : selectModel ws m = routeSpec ws m := by
  cases ws with
  | true => rfl
  | false =>
    simp only [selectModel, routeSpec, getModel, Bool.false_eq_true, if_false]
    split_ifs with h1 h2 h3
    · rw [h1]
    · rfl
    · rfl
    · rfl

/-- Claim C10: a palmreading request with no truthy `imageUrl` and no
truthy extracted user input is answered with status 400 and the JSON
error body, independently of the configuration, upstream response and
translator -- so the upstream workflow call is never initiated. -/
theorem spec_C10_thm (loc : Locale) (messages : List Msg)
    (cfgOk : Bool) (st : Nat) (body : String) (up : Upstream) (tr : Translator)
    (h : optStrTruthy (extractUserInput messages) = false) :
    postPalm loc messages Option.none cfgOk st body up tr =
      { status := 400
        body := PostBody.json "\x7b\"error\":\"Either image or user input is required\"\x7d" } := by
  unfold postPalm
  rw [if_pos ⟨rfl, h⟩]

/-- Claim C10, witness: a whitespace-only text part and no image. -/
theorem spec_C10_witness :
    postPalm Locale.en
      [{ role := "user", parts := Option.some [{ kind := "text", text := Option.some "   " }] }]
      Option.none true 200 "" (Upstream.ok []) (fun _ => Option.none) =
      { status := 400
        body := PostBody.json "\x7b\"error\":\"Either image or user input is required\"\x7d" } :=
  spec_C10_thm Locale.en
    [{ role := "user", parts := Option.some [{ kind := "text", text := Option.some "   " }] }]
    true 200 "" (Upstream.ok []) (fun _ => Option.none) (by decide)

end PalmRoute
